import Mathlib

/-!
Verification of the multifractal-spectrum estimator
(`src/mfanalysis/mfspectrum.py`, class `MultifractalSpectrum`).

Floating-point numbers are modelled as real numbers.  Python dictionaries are
modelled as maps `ℤ → Option _`; a lookup of a missing key raises a
`KeyError`, modelled by the `Except` monad.  Loops that may raise are modelled
by `exceptMap`, which stops at the first error, exactly as a Python `for` loop
does.
-/

/-- Error outcomes.  `keyError` is Python's `KeyError` from a dict lookup.
The remaining constructors name the error kinds designated by the spec
(`InvalidRangeError`, `EmptyMomentSetError`, `DegenerateRegressionError`);
they exist so that statements about them can be expressed. -/
inductive PyError where
  | keyError : PyError
  | invalidRangeError : PyError
  | emptyMomentSetError : PyError
  | degenerateRegressionError : PyError
  deriving DecidableEq

/-- The integer list `[a, a+1, ..., b]` (empty when `b < a`): both Python's
`range(a, b+1)` and `np.arange(a, b+1)`. -/
def intRange (a b : ℤ) : List ℤ :=
  (List.range (b + 1 - a).toNat).map (fun i : ℕ => a + (i : ℤ))

/-- Python/numpy slice `l[a:b]` with full Python semantics: negative indices
wrap around, out-of-range bounds clamp. -/
def pySlice {α : Type} (l : List α) (a b : ℤ) : List α :=
  let n : ℤ := l.length
  let a' : ℤ := if a < 0 then max (n + a) 0 else min a n
  let b' : ℤ := if b < 0 then max (n + b) 0 else min b n
  (l.drop a'.toNat).take (b' - a').toNat

/-- A Python `for` loop building a list, where each iteration may raise:
the first raised error aborts the loop. -/
def exceptMap {α β : Type} (f : α → Except PyError β) : List α → Except PyError (List β)
  | [] => .ok []
  | a :: l =>
    match f a with
    | .error e => .error e
    | .ok b =>
      match exceptMap f l with
      | .error e => .error e
      | .ok bs => .ok (b :: bs)

/-- External collaborator: the multiresolution quantity.  `scales` is the key
list of the `values` dict (`list(mrq.values)` in the source); `nj` and
`values` are the two dicts. -/
structure MultiResolutionQuantity where
  name : String
  scales : List ℤ
  nj : ℤ → Option ℕ
  values : ℤ → Option (List ℝ)

/-- Every scale listed in `scales` has entries in both dicts. -/
def MultiResolutionQuantity.keysPresent (mrq : MultiResolutionQuantity) : Prop :=
  ∀ j ∈ mrq.scales, (mrq.nj j).isSome ∧ (mrq.values j).isSome

/-- A valid MRQ: every listed scale has entries, the count `nj` equals the
number of stored coefficients and is positive. -/
def MultiResolutionQuantity.valid (mrq : MultiResolutionQuantity) : Prop :=
  ∀ j ∈ mrq.scales, ∃ n v,
    mrq.nj j = some n ∧ mrq.values j = some v ∧ v.length = n ∧ 0 < n

/-- The namedtuple `WaveletParameters(j1, j2, wtype)`. -/
structure WaveletParameters where
  j1 : ℤ
  j2 : ℤ
  wtype : ℕ

/-- `R_q_j = temp / temp.sum()` with `temp = np.power(m, qq)`, for `m` the
vector of coefficient magnitudes at one scale. -/
noncomputable def R_q_j (m : List ℝ) (qq : ℝ) : List ℝ :=
  let temp := m.map (fun v => v ^ qq)
  temp.map (fun t => t / temp.sum)

/-- `V[ind_j, ind_q] = (R_q_j * np.log2(mrq_values_j)).sum()`. -/
noncomputable def Vstat (m : List ℝ) (qq : ℝ) : ℝ :=
  (List.zipWith (fun r v => r * Real.logb 2 v) (R_q_j m qq) m).sum

/-- `U[ind_j, ind_q] = np.log2(nj) + (R_q_j * np.log2(R_q_j)).sum()`. -/
noncomputable def Ustat (nj : ℕ) (m : List ℝ) (qq : ℝ) : ℝ :=
  Real.logb 2 (nj : ℝ) + ((R_q_j m qq).map (fun r => r * Real.logb 2 r)).sum

/-- Spec-side formula: the normalized weight `R i = m_i ^ q / sum_k m_k ^ q`
written as an indexed family, following the spec text. -/
noncomputable def specR (m : List ℝ) (qq : ℝ) (i : ℕ) : ℝ :=
  (m.getD i 0) ^ qq / ∑ k ∈ Finset.range m.length, (m.getD k 0) ^ qq

/-- Spec-side formula: `U[j,q] = log2(nj) + sum(R * log2(R))`. -/
noncomputable def specU (nj : ℕ) (m : List ℝ) (qq : ℝ) : ℝ :=
  Real.logb 2 (nj : ℝ) +
    ∑ i ∈ Finset.range m.length, specR m qq i * Real.logb 2 (specR m qq i)

/-- Spec-side formula: `V[j,q] = sum(R * log2(m))`. -/
noncomputable def specV (m : List ℝ) (qq : ℝ) : ℝ :=
  ∑ i ∈ Finset.range m.length, specR m qq i * Real.logb 2 (m.getD i 0)

/-- Slope of the weighted least-squares line through the points
`(x i, y i)` with weights `w i` (closed form of the normal equations). -/
noncomputable def wlsSlope (x y w : List ℝ) : ℝ :=
  let n := x.length
  let Sw := ∑ i ∈ Finset.range n, w.getD i 0
  let Sx := ∑ i ∈ Finset.range n, w.getD i 0 * x.getD i 0
  let Sy := ∑ i ∈ Finset.range n, w.getD i 0 * y.getD i 0
  let Sxx := ∑ i ∈ Finset.range n, w.getD i 0 * x.getD i 0 * x.getD i 0
  let Sxy := ∑ i ∈ Finset.range n, w.getD i 0 * x.getD i 0 * y.getD i 0
  (Sw * Sxy - Sx * Sy) / (Sw * Sxx - Sx * Sx)

/-- Intercept of the weighted least-squares line. -/
noncomputable def wlsIntercept (x y w : List ℝ) : ℝ :=
  let n := x.length
  let Sw := ∑ i ∈ Finset.range n, w.getD i 0
  let Sx := ∑ i ∈ Finset.range n, w.getD i 0 * x.getD i 0
  let Sy := ∑ i ∈ Finset.range n, w.getD i 0 * y.getD i 0
  (Sy - wlsSlope x y w * Sx) / Sw

/-- Modelled from the spec: `Utils.linear_regression` (file
`mfanalysis/utils.py`, absent from `src/`).  Per the spec it is a black-box
routine `regress(x, y, weights) -> (slope, intercept)` minimizing weighted
squared error, requiring at least 2 points for a determined slope and failing
with the designated `DegenerateRegressionError` otherwise. -/
noncomputable def linear_regression (x y w : List ℝ) : Except PyError (ℝ × ℝ) :=
  if x.length < 2 then .error .degenerateRegressionError
  else .ok (wlsSlope x y w, wlsIntercept x y w)

/-- The estimator object after `__init__` returns: its attributes. -/
structure MultifractalSpectrum where
  mrq : MultiResolutionQuantity
  j : List ℤ
  q : List ℝ
  wt_param : WaveletParameters
  U : List (List ℝ)
  V : List (List ℝ)
  Dq : List ℝ
  hq : List ℝ

/-- First stage of `_compute`: the double loop filling the matrices
`U` and `V` (one row per scale in `self.j`, one column per entry of `q`). -/
noncomputable def MultifractalSpectrum.computeUV (mrq : MultiResolutionQuantity)
    (q : List ℝ) : Except PyError (List (List ℝ) × List (List ℝ)) :=
  match exceptMap (fun j =>
      match mrq.nj j, mrq.values j with
      | some nj, some vj =>
        let m := vj.map (fun v => |v|)
        Except.ok (q.map (fun qq => Ustat nj m qq), q.map (fun qq => Vstat m qq))
      | _, _ => Except.error PyError.keyError) mrq.scales with
  | .error e => .error e
  | .ok rows => .ok (rows.map Prod.fst, rows.map Prod.snd)

/-- `get_nj_interv(j1, j2)`: the list `[mrq.nj[j] for j in range(j1, j2+1)]`. -/
def MultifractalSpectrum.get_nj_interv (mrq : MultiResolutionQuantity)
    (j1 j2 : ℤ) : Except PyError (List ℕ) :=
  exceptMap (fun j =>
    match mrq.nj j with
    | some n => Except.ok n
    | none => Except.error PyError.keyError) (intRange j1 j2)

/-- One iteration of the regression loop of `_compute` for the moment order
at index `ind_q`: extract the columns `y`, `z` from the sliced matrices, run
the two regressions, keep the slopes (the intercepts are discarded). -/
noncomputable def MultifractalSpectrum.qLoopBody (x : List ℤ) (wj : List ℝ)
    (Usl Vsl : List (List ℝ)) (ind_q : ℕ) : Except PyError (ℝ × ℝ) :=
  let y := Usl.map (fun row => row.getD ind_q 0)
  let z := Vsl.map (fun row => row.getD ind_q 0)
  match linear_regression (x.map (fun j : ℤ => (j : ℝ))) y wj with
  | .error e => .error e
  | .ok (slope_1, _) =>
    match linear_regression (x.map (fun j : ℤ => (j : ℝ))) z wj with
    | .error e => .error e
    | .ok (slope_2, _) => Except.ok (1 + slope_1, slope_2)

/-- Second stage of `_compute`: `x = np.arange(j1, j2+1)`, the weights `wj`,
and one pair of regressions per moment order, producing `(Dq, hq)`. -/
noncomputable def MultifractalSpectrum.regressStage (mrq : MultiResolutionQuantity)
    (q : List ℝ) (p : WaveletParameters) (U V : List (List ℝ)) :
    Except PyError (List ℝ × List ℝ) :=
  let x := intRange p.j1 p.j2
  let wjE : Except PyError (List ℝ) :=
    if p.wtype = 1 then
      match MultifractalSpectrum.get_nj_interv mrq p.j1 p.j2 with
      | .error e => .error e
      | .ok l => .ok (l.map (fun n : ℕ => (n : ℝ)))
    else .ok (x.map (fun _ => (1 : ℝ)))
  match wjE with
  | .error e => .error e
  | .ok wj =>
    let Usl := pySlice U (p.j1 - 1) p.j2
    let Vsl := pySlice V (p.j1 - 1) p.j2
    match exceptMap (MultifractalSpectrum.qLoopBody x wj Usl Vsl) (List.range q.length) with
    | .error e => .error e
    | .ok pairs => .ok (pairs.map Prod.fst, pairs.map Prod.snd)

/-- `_compute`, returning the pair `(Dq, hq)`. -/
noncomputable def MultifractalSpectrum.compute (mrq : MultiResolutionQuantity)
    (q : List ℝ) (p : WaveletParameters) : Except PyError (List ℝ × List ℝ) :=
  match MultifractalSpectrum.computeUV mrq q with
  | .error e => .error e
  | .ok (U, V) => MultifractalSpectrum.regressStage mrq q p U V

/-- `__init__(mrq, q, j1, j2, wtype)`: stores the inputs, eagerly runs
`_compute`, and returns the constructed object with all its attributes
(`mrq`, `j`, `q`, `wt_param`, `U`, `V`, `Dq`, `hq`). -/
noncomputable def MultifractalSpectrum.init (mrq : MultiResolutionQuantity)
    (q : List ℝ) (j1 j2 : ℤ) (wtype : ℕ) : Except PyError MultifractalSpectrum :=
  match MultifractalSpectrum.computeUV mrq q with
  | .error e => .error e
  | .ok (U, V) =>
    match MultifractalSpectrum.regressStage mrq q ⟨j1, j2, wtype⟩ U V with
    | .error e => .error e
    | .ok r => .ok ⟨mrq, mrq.scales, q, ⟨j1, j2, wtype⟩, U, V, r.1, r.2⟩

/-- The count stored for scale `j` (junk value 0 when the key is absent). -/
def njOf (mrq : MultiResolutionQuantity) (j : ℤ) : ℕ := (mrq.nj j).getD 0

/-- The magnitude vector at scale `j`: element-wise absolute value of the
stored coefficients (junk value `[]` when the key is absent). -/
noncomputable def magOf (mrq : MultiResolutionQuantity) (j : ℤ) : List ℝ :=
  ((mrq.values j).getD []).map (fun v => |v|)

/-- Row of the `U` matrix for scale `j`. -/
noncomputable def rowU (mrq : MultiResolutionQuantity) (q : List ℝ) (j : ℤ) : List ℝ :=
  q.map (fun qq => Ustat (njOf mrq j) (magOf mrq j) qq)

/-- Row of the `V` matrix for scale `j`. -/
noncomputable def rowV (mrq : MultiResolutionQuantity) (q : List ℝ) (j : ℤ) : List ℝ :=
  q.map (fun qq => Vstat (magOf mrq j) qq)

/-- The regression abscissa `x = j1, j1+1, ..., j2`, as reals. -/
noncomputable def xReals (j1 j2 : ℤ) : List ℝ :=
  (intRange j1 j2).map (fun j : ℤ => (j : ℝ))

/-- The per-scale regression weights of the spec: all ones in ordinary mode,
`wj[k] = nj[x[k]]` in weighted-by-count mode. -/
noncomputable def specWeights (mrq : MultiResolutionQuantity) (j1 j2 : ℤ)
    (wtype : ℕ) : List ℝ :=
  if wtype = 1 then (intRange j1 j2).map (fun j => ((njOf mrq j : ℕ) : ℝ))
  else (intRange j1 j2).map (fun _ => (1 : ℝ))

/-- The column `U[j1..j2, q]`, indexed by scale. -/
noncomputable def windowUcol (mrq : MultiResolutionQuantity) (j1 j2 : ℤ)
    (qq : ℝ) : List ℝ :=
  (intRange j1 j2).map (fun j => Ustat (njOf mrq j) (magOf mrq j) qq)

/-- The column `V[j1..j2, q]`, indexed by scale. -/
noncomputable def windowVcol (mrq : MultiResolutionQuantity) (j1 j2 : ℤ)
    (qq : ℝ) : List ℝ :=
  (intRange j1 j2).map (fun j => Vstat (magOf mrq j) qq)

/-- A small concrete MRQ used to instantiate theorems: scales 1 and 2, one
coefficient (equal to 1) at each scale. -/
def mrq0 : MultiResolutionQuantity where
  name := "mrq0"
  scales := [1, 2]
  nj := fun j => if j = 1 then some 1 else if j = 2 then some 1 else none
  values := fun j => if j = 1 then some [1] else if j = 2 then some [1] else none

/-- A second concrete MRQ: agrees with `mrq0` on scales 1 and 2 but has an
extra scale 3 with different data. -/
def mrq1 : MultiResolutionQuantity where
  name := "mrq1"
  scales := [1, 2, 3]
  nj := fun j =>
    if j = 1 then some 1 else if j = 2 then some 1 else if j = 3 then some 2 else none
  values := fun j =>
    if j = 1 then some [1] else if j = 2 then some [1] else
    if j = 3 then some [5, 7] else none

/-! ### Helper lemmas about the plumbing -/

theorem exceptMap_ok_of {α β : Type} {f : α → Except PyError β} {g : α → β} :
    ∀ {l : List α}, (∀ a ∈ l, f a = .ok (g a)) → exceptMap f l = .ok (l.map g)
  | [], _ => rfl
  | a :: l, h => by
    have ha : f a = .ok (g a) := h a (List.mem_cons_self a l)
    have hl : exceptMap f l = .ok (l.map g) :=
      exceptMap_ok_of (fun b hb => h b (List.mem_cons_of_mem a hb))
    unfold exceptMap
    rw [ha, hl]
    rfl

theorem exceptMap_length {α β : Type} {f : α → Except PyError β} :
    ∀ {l : List α} {bs : List β}, exceptMap f l = .ok bs → bs.length = l.length
  | [], bs, h => by
    simp only [exceptMap] at h
    cases h
    rfl
  | a :: l, bs, h => by
    unfold exceptMap at h
    cases hfa : f a with
    | error e => rw [hfa] at h; cases h
    | ok b =>
      rw [hfa] at h
      cases hml : exceptMap f l with
      | error e => rw [hml] at h; cases h
      | ok bs' =>
        rw [hml] at h
        cases h
        simp [exceptMap_length hml]

theorem exceptMap_congr {α β : Type} {f g : α → Except PyError β} :
    ∀ {l : List α}, (∀ a ∈ l, f a = g a) → exceptMap f l = exceptMap g l
  | [], _ => rfl
  | a :: l, h => by
    have ha : f a = g a := h a (List.mem_cons_self a l)
    have hl : exceptMap f l = exceptMap g l :=
      exceptMap_congr (fun b hb => h b (List.mem_cons_of_mem a hb))
    unfold exceptMap
    rw [ha, hl]

theorem exceptMap_cons_error {α β : Type} {f : α → Except PyError β} {a : α}
    {l : List α} {e : PyError} (h : f a = .error e) :
    exceptMap f (a :: l) = .error e := by
  unfold exceptMap
  rw [h]

/-- A list sum of a mapped list, written as a `Finset.range` sum of the
element accessed by index. -/
theorem list_sum_map_getD {α : Type} (d : α) (f : α → ℝ) :
    ∀ (l : List α), (l.map f).sum = ∑ i ∈ Finset.range l.length, f (l.getD i d)
  | [] => by simp
  | a :: l => by
    simp only [List.map_cons, List.sum_cons, List.length_cons, Finset.sum_range_succ',
      List.getD_cons_succ, List.getD_cons_zero]
    rw [list_sum_map_getD d f l]
    ring

theorem intRange_length (a b : ℤ) : (intRange a b).length = (b + 1 - a).toNat := by
  unfold intRange
  rw [List.length_map, List.length_range]

theorem intRange_getElem (a b : ℤ) {i : ℕ} (h : i < (intRange a b).length) :
    (intRange a b)[i] = a + (i : ℤ) := by
  unfold intRange at h ⊢
  rw [List.getElem_map, List.getElem_range]

theorem intRange_eq_nil {a b : ℤ} (h : b < a) : intRange a b = [] := by
  have h0 : (b + 1 - a).toNat = 0 := by omega
  unfold intRange
  rw [h0]
  rfl

theorem intRange_mem {a b j : ℤ} : j ∈ intRange a b ↔ a ≤ j ∧ j ≤ b := by
  unfold intRange
  rw [List.mem_map]
  constructor
  · rintro ⟨i, hi, rfl⟩
    rw [List.mem_range] at hi
    omega
  · rintro ⟨h1, h2⟩
    refine ⟨(j - a).toNat, ?_, ?_⟩
    · rw [List.mem_range]
      omega
    · omega

/-- Mapping an index-access function over `range l.length` is just mapping
over `l`. -/
theorem range_map_getD {α β : Type} (l : List α) (d : α) (F : α → β) :
    (List.range l.length).map (fun i => F (l.getD i d)) = l.map F := by
  apply List.ext_getElem
  · simp
  · intro n h1 h2
    simp only [List.getElem_map, List.getElem_range]
    rw [List.getD_eq_getElem l d (by simpa using h2)]

/-- The numpy row slice `M[(j1-1):j2]` of a matrix whose rows are indexed by
the scales `1..b`, for a window `[j1, j2]` inside `[1, b]`, selects exactly
the rows of scales `j1..j2`. -/
theorem pySlice_map_intRange {α : Type} (g : ℤ → α) (b j1 j2 : ℤ)
    (h1 : 1 ≤ j1) (h12 : j1 ≤ j2 + 1) (h2b : j2 ≤ b) :
    pySlice ((intRange 1 b).map g) (j1 - 1) j2 = (intRange j1 j2).map g := by
  have hn : (((intRange 1 b).map g).length : ℤ) = b := by
    rw [List.length_map, intRange_length]
    omega
  have ha : ¬ (j1 - 1 < 0) := by omega
  have hb' : ¬ (j2 < 0) := by omega
  unfold pySlice
  simp only [if_neg ha, if_neg hb', hn]
  rw [min_eq_left (by omega), min_eq_left (by omega)]
  apply List.ext_getElem
  · simp only [List.length_take, List.length_drop, List.length_map, intRange_length]
    omega
  · intro n hL hR
    rw [List.getElem_take, List.getElem_drop, List.getElem_map, List.getElem_map,
      intRange_getElem, intRange_getElem]
    congr 1
    omega

/-! ### Characterizing the stages of `_compute` -/

theorem computeUV_ok (mrq : MultiResolutionQuantity) (q : List ℝ)
    (hkeys : mrq.keysPresent) :
    MultifractalSpectrum.computeUV mrq q =
      .ok (mrq.scales.map (rowU mrq q), mrq.scales.map (rowV mrq q)) := by
  unfold MultifractalSpectrum.computeUV
  rw [exceptMap_ok_of (g := fun j => (rowU mrq q j, rowV mrq q j))]
  · simp only [List.map_map]
    rfl
  · intro j hj
    obtain ⟨h1, h2⟩ := hkeys j hj
    obtain ⟨n, hn⟩ := Option.isSome_iff_exists.mp h1
    obtain ⟨v, hv⟩ := Option.isSome_iff_exists.mp h2
    rw [hn, hv]
    unfold rowU rowV njOf magOf
    rw [hn, hv]
    rfl

theorem linear_regression_ok {x y w : List ℝ} (h : 2 ≤ x.length) :
    linear_regression x y w = .ok (wlsSlope x y w, wlsIntercept x y w) := by
  unfold linear_regression
  rw [if_neg (by omega)]

theorem linear_regression_err {x y w : List ℝ} (h : x.length < 2) :
    linear_regression x y w = .error .degenerateRegressionError := by
  unfold linear_regression
  rw [if_pos h]

/-! ### The statistics agree with the spec formulas -/

theorem Ustat_eq_specU (nj : ℕ) (m : List ℝ) (qq : ℝ) :
    Ustat nj m qq = specU nj m qq := by
  have hS : (m.map (fun v => v ^ qq)).sum =
      ∑ k ∈ Finset.range m.length, (m.getD k 0) ^ qq :=
    list_sum_map_getD 0 (fun v => v ^ qq) m
  simp only [Ustat, specU, specR, R_q_j]
  simp only [hS, List.map_map]
  rw [list_sum_map_getD (0 : ℝ)]
  rfl

theorem Vstat_eq_specV (m : List ℝ) (qq : ℝ) :
    Vstat m qq = specV m qq := by
  have hS : (m.map (fun v => v ^ qq)).sum =
      ∑ k ∈ Finset.range m.length, (m.getD k 0) ^ qq :=
    list_sum_map_getD 0 (fun v => v ^ qq) m
  simp only [Vstat, specV, specR, R_q_j]
  simp only [hS, List.map_map, List.zipWith_map_left, List.zipWith_same]
  rw [list_sum_map_getD (0 : ℝ)]
  rfl

/-- With `qq = 0` the weights degenerate to the uniform distribution and the
entropy term exactly cancels `log2(nj)`. -/
theorem Ustat_q_zero {nj : ℕ} {m : List ℝ} (hlen : m.length = nj) (hpos : 0 < nj) :
    Ustat nj m 0 = 0 := by
  have hmap : m.map (fun v => v ^ (0 : ℝ)) = List.replicate m.length 1 := by
    calc m.map (fun v => v ^ (0 : ℝ)) = m.map (fun _ => (1 : ℝ)) :=
          List.map_congr_left (fun a _ => Real.rpow_zero a)
    _ = List.replicate m.length 1 := List.map_const m 1
  have hn : ((m.length : ℝ)) ≠ 0 := by
    rw [hlen]
    exact Nat.cast_ne_zero.mpr (Nat.pos_iff_ne_zero.mp hpos)
  have hsum : (List.replicate m.length (1 : ℝ)).sum = (m.length : ℝ) := by
    rw [List.sum_replicate, nsmul_eq_mul, mul_one]
  simp only [Ustat, R_q_j, hmap, hsum, List.map_replicate, List.sum_replicate,
    nsmul_eq_mul]
  rw [← mul_assoc, mul_one_div_cancel hn, one_mul, one_div, Real.logb_inv, hlen]
  exact add_neg_cancel _

/-! ### Spec-side window quantities for the regression stage -/

theorem windowU_col (mrq : MultiResolutionQuantity) (q : List ℝ) (j1 j2 : ℤ)
    {i : ℕ} (hi : i < q.length) :
    ((intRange j1 j2).map (rowU mrq q)).map (fun row => row.getD i 0) =
      windowUcol mrq j1 j2 (q.getD i 0) := by
  rw [List.map_map]
  unfold windowUcol
  apply List.map_congr_left
  intro j _
  show (rowU mrq q j).getD i 0 = _
  unfold rowU
  rw [List.getD_eq_getElem _ _ (by simpa using hi), List.getElem_map,
    List.getD_eq_getElem q 0 hi]

theorem windowV_col (mrq : MultiResolutionQuantity) (q : List ℝ) (j1 j2 : ℤ)
    {i : ℕ} (hi : i < q.length) :
    ((intRange j1 j2).map (rowV mrq q)).map (fun row => row.getD i 0) =
      windowVcol mrq j1 j2 (q.getD i 0) := by
  rw [List.map_map]
  unfold windowVcol
  apply List.map_congr_left
  intro j _
  show (rowV mrq q j).getD i 0 = _
  unfold rowV
  rw [List.getD_eq_getElem _ _ (by simpa using hi), List.getElem_map,
    List.getD_eq_getElem q 0 hi]

theorem get_nj_interv_ok (mrq : MultiResolutionQuantity) (j1 j2 : ℤ)
    (hwin : ∀ j, j1 ≤ j → j ≤ j2 → (mrq.nj j).isSome) :
    MultifractalSpectrum.get_nj_interv mrq j1 j2 =
      .ok ((intRange j1 j2).map (njOf mrq)) := by
  unfold MultifractalSpectrum.get_nj_interv
  apply exceptMap_ok_of
  intro j hj
  obtain ⟨hl, hr⟩ := intRange_mem.mp hj
  obtain ⟨n, hn⟩ := Option.isSome_iff_exists.mp (hwin j hl hr)
  rw [hn]
  unfold njOf
  rw [hn]
  rfl

/-- Scaling all weights by a nonzero constant does not change the
least-squares slope. -/
theorem wlsSlope_smul_weights {x y w1 w2 : List ℝ} {c : ℝ} (hc : c ≠ 0)
    (h : ∀ i < x.length, w1.getD i 0 = c * w2.getD i 0) :
    wlsSlope x y w1 = wlsSlope x y w2 := by
  have key : ∀ A B C D E : ℝ,
      (c * A * (c * B) - c * C * (c * D)) / (c * A * (c * E) - c * C * (c * C)) =
        (A * B - C * D) / (A * E - C * C) := by
    intro A B C D E
    have h2 : c * c ≠ 0 := mul_ne_zero hc hc
    have hN : c * A * (c * B) - c * C * (c * D) = c * c * (A * B - C * D) := by ring
    have hD : c * A * (c * E) - c * C * (c * C) = c * c * (A * E - C * C) := by ring
    rw [hN, hD, mul_div_mul_left _ _ h2]
  simp only [wlsSlope]
  have e1 : ∑ i ∈ Finset.range x.length, w1.getD i 0 =
      c * ∑ i ∈ Finset.range x.length, w2.getD i 0 := by
    rw [Finset.mul_sum]
    exact Finset.sum_congr rfl (fun i hi => h i (Finset.mem_range.mp hi))
  have e2 : ∑ i ∈ Finset.range x.length, w1.getD i 0 * x.getD i 0 =
      c * ∑ i ∈ Finset.range x.length, w2.getD i 0 * x.getD i 0 := by
    rw [Finset.mul_sum]
    refine Finset.sum_congr rfl (fun i hi => ?_)
    rw [h i (Finset.mem_range.mp hi)]
    ring
  have e3 : ∑ i ∈ Finset.range x.length, w1.getD i 0 * y.getD i 0 =
      c * ∑ i ∈ Finset.range x.length, w2.getD i 0 * y.getD i 0 := by
    rw [Finset.mul_sum]
    refine Finset.sum_congr rfl (fun i hi => ?_)
    rw [h i (Finset.mem_range.mp hi)]
    ring
  have e4 : ∑ i ∈ Finset.range x.length, w1.getD i 0 * x.getD i 0 * x.getD i 0 =
      c * ∑ i ∈ Finset.range x.length, w2.getD i 0 * x.getD i 0 * x.getD i 0 := by
    rw [Finset.mul_sum]
    refine Finset.sum_congr rfl (fun i hi => ?_)
    rw [h i (Finset.mem_range.mp hi)]
    ring
  have e5 : ∑ i ∈ Finset.range x.length, w1.getD i 0 * x.getD i 0 * y.getD i 0 =
      c * ∑ i ∈ Finset.range x.length, w2.getD i 0 * x.getD i 0 * y.getD i 0 := by
    rw [Finset.mul_sum]
    refine Finset.sum_congr rfl (fun i hi => ?_)
    rw [h i (Finset.mem_range.mp hi)]
    ring
  rw [e1, e2, e3, e4, e5]
  exact key _ _ _ _ _

theorem xReals_def (j1 j2 : ℤ) :
    (intRange j1 j2).map (fun j : ℤ => (j : ℝ)) = xReals j1 j2 := rfl

theorem specWeights_exprE (mrq : MultiResolutionQuantity) (j1 j2 : ℤ) (wtype : ℕ)
    (hwin : wtype = 1 → ∀ j, j1 ≤ j → j ≤ j2 → (mrq.nj j).isSome) :
    (if wtype = 1 then
      match MultifractalSpectrum.get_nj_interv mrq j1 j2 with
      | .error e => .error e
      | .ok l => .ok (l.map (fun n : ℕ => (n : ℝ)))
    else .ok ((intRange j1 j2).map (fun _ => (1 : ℝ)))) =
      Except.ok (specWeights mrq j1 j2 wtype) := by
  unfold specWeights
  by_cases hw : wtype = 1
  · rw [if_pos hw, if_pos hw, get_nj_interv_ok mrq j1 j2 (hwin hw)]
    simp only [List.map_map]
    rfl
  · rw [if_neg hw, if_neg hw]

/-- The regression stage, fed the matrices produced by the statistics loop
over scales `1..jmax`, succeeds on a window `[j1, j2]` of at least two scales
inside `[1, jmax]`, and returns exactly the spec's per-order slopes over the
scale-indexed window columns. -/
theorem regressStage_spec (mrq : MultiResolutionQuantity) (q : List ℝ)
    (j1 j2 : ℤ) (wtype : ℕ) (jmax : ℤ)
    (hscales : mrq.scales = intRange 1 jmax)
    (h1 : 1 ≤ j1) (h12 : j1 < j2) (h2 : j2 ≤ jmax)
    (hwin : ∀ j, j1 ≤ j → j ≤ j2 → (mrq.nj j).isSome) :
    MultifractalSpectrum.regressStage mrq q ⟨j1, j2, wtype⟩
        (mrq.scales.map (rowU mrq q)) (mrq.scales.map (rowV mrq q)) =
      .ok
        (q.map (fun qq => 1 + wlsSlope (xReals j1 j2) (windowUcol mrq j1 j2 qq)
            (specWeights mrq j1 j2 wtype)),
         q.map (fun qq => wlsSlope (xReals j1 j2) (windowVcol mrq j1 j2 qq)
            (specWeights mrq j1 j2 wtype))) := by
  have hxlen : 2 ≤ (xReals j1 j2).length := by
    unfold xReals
    rw [List.length_map, intRange_length]
    omega
  simp only [MultifractalSpectrum.regressStage]
  rw [specWeights_exprE mrq j1 j2 wtype (fun _ => hwin)]
  split
  · rename_i e heq
    exact Except.noConfusion heq
  rename_i wj heq
  injection heq with hwj
  subst hwj
  rw [exceptMap_ok_of (g := fun i =>
      (1 + wlsSlope (xReals j1 j2) (windowUcol mrq j1 j2 (q.getD i 0))
          (specWeights mrq j1 j2 wtype),
       wlsSlope (xReals j1 j2) (windowVcol mrq j1 j2 (q.getD i 0))
          (specWeights mrq j1 j2 wtype)))]
  · refine congrArg Except.ok (Prod.ext ?_ ?_)
    · apply List.ext_getElem
      · simp
      · intro n hn1 hn2
        have hnq : n < q.length := by simpa using hn2
        simp only [List.getElem_map, List.getElem_range]
        rw [List.getD_eq_getElem q 0 hnq]
    · apply List.ext_getElem
      · simp
      · intro n hn1 hn2
        have hnq : n < q.length := by simpa using hn2
        simp only [List.getElem_map, List.getElem_range]
        rw [List.getD_eq_getElem q 0 hnq]
  · intro i hi
    have hiq : i < q.length := List.mem_range.mp hi
    simp only [MultifractalSpectrum.qLoopBody]
    rw [hscales]
    rw [pySlice_map_intRange (rowU mrq q) jmax j1 j2 h1 (by omega) h2,
      pySlice_map_intRange (rowV mrq q) jmax j1 j2 h1 (by omega) h2]
    rw [windowU_col mrq q j1 j2 hiq, windowV_col mrq q j1 j2 hiq]
    simp only [xReals_def]
    rw [linear_regression_ok hxlen, linear_regression_ok hxlen]

theorem regressStage_length {mrq : MultiResolutionQuantity} {q : List ℝ}
    {p : WaveletParameters} {U V : List (List ℝ)} {r : List ℝ × List ℝ}
    (h : MultifractalSpectrum.regressStage mrq q p U V = .ok r) :
    r.1.length = q.length ∧ r.2.length = q.length := by
  simp only [MultifractalSpectrum.regressStage] at h
  split at h
  · exact Except.noConfusion h
  split at h
  · exact Except.noConfusion h
  rename_i pairs heq
  injection h with h'
  subst h'
  have hlen : pairs.length = q.length := by
    rw [exceptMap_length heq]
    exact List.length_range q.length
  constructor <;> simp [hlen]

theorem regressStage_degenerate (mrq : MultiResolutionQuantity) (q : List ℝ)
    (p : WaveletParameters) (U V : List (List ℝ)) (hq : q ≠ [])
    (hxshort : (intRange p.j1 p.j2).length < 2)
    (hwin : p.wtype = 1 → ∀ j, p.j1 ≤ j → j ≤ p.j2 → (mrq.nj j).isSome) :
    MultifractalSpectrum.regressStage mrq q p U V =
      .error .degenerateRegressionError := by
  simp only [MultifractalSpectrum.regressStage]
  rw [specWeights_exprE mrq p.j1 p.j2 p.wtype hwin]
  split
  · rename_i e heq
    exact Except.noConfusion heq
  rename_i wj heq
  injection heq with hwj
  subst hwj
  obtain ⟨k, hk⟩ : ∃ k, q.length = k + 1 := by
    cases q with
    | nil => exact absurd rfl hq
    | cons a t => exact ⟨t.length, rfl⟩
  rw [hk, List.range_succ_eq_map,
    exceptMap_cons_error (e := PyError.degenerateRegressionError)]
  simp only [MultifractalSpectrum.qLoopBody]
  rw [linear_regression_err]
  rw [List.length_map]
  exact hxshort

theorem regressStage_empty_q (mrq : MultiResolutionQuantity)
    (p : WaveletParameters) (U V : List (List ℝ))
    (hwin : p.wtype = 1 → ∀ j, p.j1 ≤ j → j ≤ p.j2 → (mrq.nj j).isSome) :
    MultifractalSpectrum.regressStage mrq [] p U V = .ok ([], []) := by
  simp only [MultifractalSpectrum.regressStage]
  rw [specWeights_exprE mrq p.j1 p.j2 p.wtype hwin]
  split
  · rename_i e heq
    exact Except.noConfusion heq
  rename_i wj heq
  injection heq with hwj
  subst hwj
  rfl

theorem getD_map_const {α : Type} (l : List α) (r : ℝ) {i : ℕ} (hi : i < l.length) :
    (l.map (fun _ => r)).getD i 0 = r := by
  rw [List.getD_eq_getElem _ _ (by simpa using hi), List.getElem_map]

/-- Swapping the weighting mode only rescales every regression weight by the
constant count `c`, which leaves every slope unchanged. -/
theorem regressStage_wtype01 (mrq : MultiResolutionQuantity) (q : List ℝ)
    (j1 j2 : ℤ) (U V : List (List ℝ)) (c : ℕ) (hc : 0 < c)
    (hconst : ∀ j, j1 ≤ j → j ≤ j2 → mrq.nj j = some c) :
    MultifractalSpectrum.regressStage mrq q ⟨j1, j2, 1⟩ U V =
      MultifractalSpectrum.regressStage mrq q ⟨j1, j2, 0⟩ U V := by
  have hwin : ∀ j, j1 ≤ j → j ≤ j2 → (mrq.nj j).isSome := fun j ha hb => by
    rw [hconst j ha hb]
    rfl
  have hW1 : specWeights mrq j1 j2 1 = (intRange j1 j2).map (fun _ => (c : ℝ)) := by
    unfold specWeights
    rw [if_pos rfl]
    apply List.map_congr_left
    intro j hj
    obtain ⟨ha, hb⟩ := intRange_mem.mp hj
    unfold njOf
    rw [hconst j ha hb]
    rfl
  have hW0 : specWeights mrq j1 j2 0 = (intRange j1 j2).map (fun _ => (1 : ℝ)) := by
    unfold specWeights
    rw [if_neg (by omega)]
  have hcast : ((c : ℕ) : ℝ) ≠ 0 := Nat.cast_ne_zero.mpr (Nat.pos_iff_ne_zero.mp hc)
  have hbody : MultifractalSpectrum.qLoopBody (intRange j1 j2) (specWeights mrq j1 j2 1)
      (pySlice U (j1 - 1) j2) (pySlice V (j1 - 1) j2) =
      MultifractalSpectrum.qLoopBody (intRange j1 j2) (specWeights mrq j1 j2 0)
      (pySlice U (j1 - 1) j2) (pySlice V (j1 - 1) j2) := by
    funext i
    simp only [MultifractalSpectrum.qLoopBody]
    by_cases hxl : ((intRange j1 j2).map (fun j : ℤ => (j : ℝ))).length < 2
    · rw [linear_regression_err hxl, linear_regression_err hxl,
        linear_regression_err hxl, linear_regression_err hxl]
    · have hxl2 : 2 ≤ ((intRange j1 j2).map (fun j : ℤ => (j : ℝ))).length := by omega
      have hslope : ∀ y : List ℝ,
          wlsSlope ((intRange j1 j2).map (fun j : ℤ => (j : ℝ))) y
              (specWeights mrq j1 j2 1) =
            wlsSlope ((intRange j1 j2).map (fun j : ℤ => (j : ℝ))) y
              (specWeights mrq j1 j2 0) := by
        intro y
        apply wlsSlope_smul_weights hcast
        intro i2 hi2
        have hi2' : i2 < (intRange j1 j2).length := by simpa using hi2
        rw [hW1, hW0, getD_map_const _ _ hi2', getD_map_const _ _ hi2', mul_one]
      rw [linear_regression_ok hxl2, linear_regression_ok hxl2,
        linear_regression_ok hxl2, linear_regression_ok hxl2,
        hslope ((pySlice U (j1 - 1) j2).map (fun row => row.getD i 0)),
        hslope ((pySlice V (j1 - 1) j2).map (fun row => row.getD i 0))]
  unfold MultifractalSpectrum.regressStage
  dsimp only []
  rw [specWeights_exprE mrq j1 j2 1 (fun _ => hwin),
    specWeights_exprE mrq j1 j2 0 (fun _ => hwin)]
  split
  · rename_i e heq
    exact Except.noConfusion heq
  rename_i wj1 heq1
  injection heq1 with h1
  subst h1
  rw [hbody]

/-- The regression stage only reads `get_nj_interv` over the window and the
row slices of the two matrices. -/
theorem regressStage_congr (mrq1 mrq2 : MultiResolutionQuantity) (q : List ℝ)
    (p : WaveletParameters) (U1 V1 U2 V2 : List (List ℝ))
    (hnj : MultifractalSpectrum.get_nj_interv mrq1 p.j1 p.j2 =
      MultifractalSpectrum.get_nj_interv mrq2 p.j1 p.j2)
    (hU : pySlice U1 (p.j1 - 1) p.j2 = pySlice U2 (p.j1 - 1) p.j2)
    (hV : pySlice V1 (p.j1 - 1) p.j2 = pySlice V2 (p.j1 - 1) p.j2) :
    MultifractalSpectrum.regressStage mrq1 q p U1 V1 =
      MultifractalSpectrum.regressStage mrq2 q p U2 V2 := by
  simp only [MultifractalSpectrum.regressStage]
  rw [hnj]
  simp only [hU, hV]

theorem valid_keysPresent {mrq : MultiResolutionQuantity} (h : mrq.valid) :
    mrq.keysPresent := by
  intro j hj
  obtain ⟨n, v, hn, hv, _, _⟩ := h j hj
  rw [hn, hv]
  exact ⟨rfl, rfl⟩

theorem compute_of_UV {mrq : MultiResolutionQuantity} {q : List ℝ}
    {U V : List (List ℝ)} (p : WaveletParameters)
    (hUV : MultifractalSpectrum.computeUV mrq q = .ok (U, V)) :
    MultifractalSpectrum.compute mrq q p =
      MultifractalSpectrum.regressStage mrq q p U V := by
  unfold MultifractalSpectrum.compute
  rw [hUV]

theorem compute_error_of_UV {mrq : MultiResolutionQuantity} {q : List ℝ}
    {e : PyError} (p : WaveletParameters)
    (hUV : MultifractalSpectrum.computeUV mrq q = .error e) :
    MultifractalSpectrum.compute mrq q p = .error e := by
  unfold MultifractalSpectrum.compute
  rw [hUV]

theorem init_ok_of {mrq : MultiResolutionQuantity} {q : List ℝ} {j1 j2 : ℤ}
    {wtype : ℕ} {U V : List (List ℝ)} {r : List ℝ × List ℝ}
    (hUV : MultifractalSpectrum.computeUV mrq q = .ok (U, V))
    (hr : MultifractalSpectrum.regressStage mrq q ⟨j1, j2, wtype⟩ U V = .ok r) :
    MultifractalSpectrum.init mrq q j1 j2 wtype =
      .ok ⟨mrq, mrq.scales, q, ⟨j1, j2, wtype⟩, U, V, r.1, r.2⟩ := by
  unfold MultifractalSpectrum.init
  rw [hUV]
  split
  · rename_i e heq
    exact Except.noConfusion heq
  rename_i U' V' heq
  injection heq with h
  injection h with hU hV
  subst hU
  subst hV
  rw [hr]

theorem init_error_of_UV {mrq : MultiResolutionQuantity} {q : List ℝ}
    {j1 j2 : ℤ} {wtype : ℕ} {e : PyError}
    (hUV : MultifractalSpectrum.computeUV mrq q = .error e) :
    MultifractalSpectrum.init mrq q j1 j2 wtype = .error e := by
  unfold MultifractalSpectrum.init
  rw [hUV]

theorem init_error_of_regress {mrq : MultiResolutionQuantity} {q : List ℝ}
    {j1 j2 : ℤ} {wtype : ℕ} {U V : List (List ℝ)} {e : PyError}
    (hUV : MultifractalSpectrum.computeUV mrq q = .ok (U, V))
    (hr : MultifractalSpectrum.regressStage mrq q ⟨j1, j2, wtype⟩ U V = .error e) :
    MultifractalSpectrum.init mrq q j1 j2 wtype = .error e := by
  unfold MultifractalSpectrum.init
  rw [hUV]
  split
  · rename_i e2 heq
    exact Except.noConfusion heq
  rename_i U' V' heq
  injection heq with h
  injection h with hU hV
  subst hU
  subst hV
  rw [hr]

/-- `getD` through `map`, at an index inside the list. -/
theorem getD_map_lt {α β : Type} (f : α → β) {l : List α} {i : ℕ}
    (hi : i < l.length) (d : α) {d2 : β} :
    (l.map f).getD i d2 = f (l.getD i d) := by
  rw [List.getD_eq_getElem _ _ (by simpa using hi), List.getElem_map,
    List.getD_eq_getElem l d hi]

/-! ### Concrete instances -/

theorem mrq0_valid : mrq0.valid := by
  intro j hj
  have hs : mrq0.scales = [1, 2] := rfl
  rw [hs] at hj
  fin_cases hj
  · exact ⟨1, [1], rfl, rfl, rfl, Nat.one_pos⟩
  · exact ⟨1, [1], rfl, rfl, rfl, Nat.one_pos⟩

theorem mrq1_valid : mrq1.valid := by
  intro j hj
  have hs : mrq1.scales = [1, 2, 3] := rfl
  rw [hs] at hj
  fin_cases hj
  · exact ⟨1, [1], rfl, rfl, rfl, Nat.one_pos⟩
  · exact ⟨1, [1], rfl, rfl, rfl, Nat.one_pos⟩
  · exact ⟨2, [5, 7], rfl, rfl, rfl, Nat.zero_lt_two⟩

/-! ### The claims -/

/-- C1: for every scale `j` in the MRQ and every moment order `q` in the
supplied sequence, with `m = |values[j]|` element-wise and
`R = m^q / sum(m^q)`, the computed statistics satisfy
`V[j,q] = sum(R * log2(m))` and `U[j,q] = log2(nj) + sum(R * log2(R))`
(the right-hand sides are `specV`/`specU`, spelled from the spec text). -/
theorem C1_UV_formulas (mrq : MultiResolutionQuantity) (q : List ℝ)
    (hkeys : mrq.keysPresent) (U V : List (List ℝ))
    (hUV : MultifractalSpectrum.computeUV mrq q = .ok (U, V))
    (ind_j ind_q : ℕ) (hj : ind_j < mrq.scales.length) (hiq : ind_q < q.length) :
    (U.getD ind_j []).getD ind_q 0 =
      specU (njOf mrq (mrq.scales.getD ind_j 0)) (magOf mrq (mrq.scales.getD ind_j 0))
        (q.getD ind_q 0) ∧
    (V.getD ind_j []).getD ind_q 0 =
      specV (magOf mrq (mrq.scales.getD ind_j 0)) (q.getD ind_q 0) := by
  have hUV' := computeUV_ok mrq q hkeys
  have h2 : (mrq.scales.map (rowU mrq q), mrq.scales.map (rowV mrq q)) = (U, V) :=
    Except.ok.inj (hUV'.symm.trans hUV)
  injection h2 with hU hV
  subst hU
  subst hV
  constructor
  · rw [getD_map_lt (rowU mrq q) hj 0]
    unfold rowU
    rw [getD_map_lt _ hiq 0]
    exact Ustat_eq_specU _ _ _
  · rw [getD_map_lt (rowV mrq q) hj 0]
    unfold rowV
    rw [getD_map_lt _ hiq 0]
    exact Vstat_eq_specV _ _

/-- C1 witness: the formulas hold for `mrq0` at scale index 0 and moment
order `q = 2`. -/
theorem C1_witness :
    ((mrq0.scales.map (rowU mrq0 [2])).getD 0 []).getD 0 0 =
      specU (njOf mrq0 (mrq0.scales.getD 0 0)) (magOf mrq0 (mrq0.scales.getD 0 0))
        (([2] : List ℝ).getD 0 0) ∧
    ((mrq0.scales.map (rowV mrq0 [2])).getD 0 []).getD 0 0 =
      specV (magOf mrq0 (mrq0.scales.getD 0 0)) (([2] : List ℝ).getD 0 0) :=
  C1_UV_formulas mrq0 [2] (valid_keysPresent mrq0_valid) _ _
    (computeUV_ok mrq0 [2] (valid_keysPresent mrq0_valid)) 0 0 (by decide) (by decide)

/-- C6: for every valid MRQ, if the moment order `0` is requested then the
corresponding column of `U` is identically `0`. -/
theorem C6_U_zero_at_q0 (mrq : MultiResolutionQuantity) (q : List ℝ)
    (hvalid : mrq.valid) (U V : List (List ℝ))
    (hUV : MultifractalSpectrum.computeUV mrq q = .ok (U, V))
    (k : ℕ) (hk : k < q.length) (h0 : q.getD k 0 = 0) :
    ∀ row ∈ U, row.getD k 0 = 0 := by
  have hUV' := computeUV_ok mrq q (valid_keysPresent hvalid)
  have h2 : (mrq.scales.map (rowU mrq q), mrq.scales.map (rowV mrq q)) = (U, V) :=
    Except.ok.inj (hUV'.symm.trans hUV)
  injection h2 with hU hV
  subst hU
  intro row hrow
  obtain ⟨js, hjmem, hrweq⟩ := List.mem_map.mp hrow
  subst hrweq
  unfold rowU
  rw [getD_map_lt _ hk 0, h0]
  obtain ⟨n, v, hn, hv, hlen, hpos⟩ := hvalid js hjmem
  have hnj : njOf mrq js = n := by
    unfold njOf
    rw [hn]
    rfl
  have hm : magOf mrq js = v.map (fun t => |t|) := by
    unfold magOf
    rw [hv]
    rfl
  apply Ustat_q_zero
  · rw [hm, List.length_map, hlen, hnj]
  · rw [hnj]
    exact hpos

/-- C6 witness: for `mrq0` with `q = [0]`, the `U` entry of the row of
scale 1 at column 0 is `0`. -/
theorem C6_witness : (rowU mrq0 [0] 1).getD 0 0 = 0 :=
  C6_U_zero_at_q0 mrq0 [0] mrq0_valid _ _
    (computeUV_ok mrq0 [0] (valid_keysPresent mrq0_valid)) 0 (by decide) rfl
    (rowU mrq0 [0] 1) (List.mem_map.mpr ⟨1, by decide, rfl⟩)

/-- C8: every successful construction yields `Dq` and `hq` of exactly the
length of the input `q` sequence, whatever the scale window is. -/
theorem C8_output_lengths (mrq : MultiResolutionQuantity) (q : List ℝ)
    (j1 j2 : ℤ) (wtype : ℕ) (s : MultifractalSpectrum)
    (h : MultifractalSpectrum.init mrq q j1 j2 wtype = .ok s) :
    s.Dq.length = q.length ∧ s.hq.length = q.length := by
  unfold MultifractalSpectrum.init at h
  split at h
  · exact Except.noConfusion h
  split at h
  · exact Except.noConfusion h
  rename_i r heq
  injection h with h'
  subst h'
  exact regressStage_length heq

/-- C4: construction over the one-scale window `j1 == j2` fails with the
designated `DegenerateRegressionError` instead of returning a numeric
result, for any valid MRQ, any nonempty `q` and either `wtype`. -/
theorem C4_degenerate_window (mrq : MultiResolutionQuantity) (q : List ℝ)
    (j1 : ℤ) (wtype : ℕ) (hvalid : mrq.valid) (hmem : j1 ∈ mrq.scales)
    (hq : q ≠ []) :
    MultifractalSpectrum.init mrq q j1 j1 wtype =
      .error .degenerateRegressionError := by
  apply init_error_of_regress (computeUV_ok mrq q (valid_keysPresent hvalid))
  apply regressStage_degenerate mrq q ⟨j1, j1, wtype⟩ _ _ hq
  · rw [intRange_length]
    show (j1 + 1 - j1).toNat < 2
    omega
  · intro _ j ha hb
    have ha' : j1 ≤ j := ha
    have hb' : j ≤ j1 := hb
    have hj : j = j1 := by omega
    subst hj
    obtain ⟨n, v, hn, _, _, _⟩ := hvalid j hmem
    rw [hn]
    rfl

/-- C4 witness: for `mrq0`, `q = [2]`, `j1 = j2 = 1`, weighted mode. -/
theorem C4_witness :
    MultifractalSpectrum.init mrq0 [2] 1 1 1 = .error .degenerateRegressionError :=
  C4_degenerate_window mrq0 [2] 1 1 mrq0_valid (by decide) (by simp)

/-- C3 counterexample: with `j1 = 3 > 2 = j2` construction fails with the
degenerate-regression error, not with `InvalidRangeError` — the code
performs no range validation at all. -/
theorem C3_counterexample :
    MultifractalSpectrum.init mrq0 [2] 3 2 0 = .error .degenerateRegressionError ∧
      PyError.degenerateRegressionError ≠ PyError.invalidRangeError := by
  constructor
  · apply init_error_of_regress (computeUV_ok mrq0 [2] (valid_keysPresent mrq0_valid))
    apply regressStage_degenerate mrq0 [2] ⟨3, 2, 0⟩ _ _ (by simp)
    · rw [intRange_length]
      decide
    · intro h0
      exact absurd h0 (by decide)
  · decide

/-- C3 amended: construction never raises `InvalidRangeError`; with
`j1 > j2` (and a nonempty `q`) it instead reaches the regression routine
with an empty scale window and fails with `DegenerateRegressionError`. -/
theorem C3_no_invalid_range (mrq : MultiResolutionQuantity) (q : List ℝ)
    (j1 j2 : ℤ) (wtype : ℕ) (hkeys : mrq.keysPresent) (hq : q ≠ [])
    (hj : j2 < j1) :
    MultifractalSpectrum.init mrq q j1 j2 wtype =
      .error .degenerateRegressionError := by
  apply init_error_of_regress (computeUV_ok mrq q hkeys)
  apply regressStage_degenerate mrq q ⟨j1, j2, wtype⟩ _ _ hq
  · rw [intRange_length]
    show (j2 + 1 - j1).toNat < 2
    omega
  · intro _ j ha hb
    have ha' : j1 ≤ j := ha
    have hb' : j ≤ j2 := hb
    exact absurd (ha'.trans hb') (by omega)

/-- C3 witness: the amended statement at `mrq0`, `q = [2]`, `j1 = 3`,
`j2 = 2`, weighted mode. -/
theorem C3_witness :
    MultifractalSpectrum.init mrq0 [2] 3 2 1 = .error .degenerateRegressionError :=
  C3_no_invalid_range mrq0 [2] 3 2 1 (valid_keysPresent mrq0_valid) (by simp)
    (by decide)

/-- C5 counterexample: construction with an empty `q` succeeds, returning
empty `Dq` and `hq`; no `EmptyMomentSetError` is raised. -/
theorem C5_counterexample :
    (MultifractalSpectrum.init mrq0 [] 1 2 0).map (fun s => (s.Dq, s.hq)) =
        .ok ([], []) ∧
      MultifractalSpectrum.init mrq0 [] 1 2 0 ≠ .error .emptyMomentSetError := by
  have h := init_ok_of (computeUV_ok mrq0 [] (valid_keysPresent mrq0_valid))
    (regressStage_empty_q mrq0 ⟨1, 2, 0⟩ (mrq0.scales.map (rowU mrq0 []))
      (mrq0.scales.map (rowV mrq0 []))
      (fun h0 => absurd h0 (by decide)))
  constructor
  · rw [h]
    rfl
  · rw [h]
    exact fun hc => Except.noConfusion hc

/-- C5 amended: construction with an empty moment sequence succeeds for any
MRQ whose dict lookups succeed, and returns empty `hq` and `Dq`. -/
theorem C5_empty_q_ok (mrq : MultiResolutionQuantity) (j1 j2 : ℤ) (wtype : ℕ)
    (hkeys : mrq.keysPresent)
    (hwin : wtype = 1 → ∀ j, j1 ≤ j → j ≤ j2 → (mrq.nj j).isSome) :
    (MultifractalSpectrum.init mrq [] j1 j2 wtype).map (fun s => (s.Dq, s.hq)) =
      .ok ([], []) := by
  rw [init_ok_of (computeUV_ok mrq [] hkeys)
    (regressStage_empty_q mrq ⟨j1, j2, wtype⟩ (mrq.scales.map (rowU mrq []))
      (mrq.scales.map (rowV mrq [])) hwin)]
  rfl

/-- C5 witness: the amended statement at `mrq0` in weighted mode. -/
theorem C5_witness :
    (MultifractalSpectrum.init mrq0 [] 1 2 1).map (fun s => (s.Dq, s.hq)) =
      .ok ([], []) :=
  C5_empty_q_ok mrq0 1 2 1 (valid_keysPresent mrq0_valid)
    (by
      intro _ j ha hb
      interval_cases j <;> rfl)

/-- C8 witness: for `mrq0` with one moment order and window `[1, 2]`, both
outputs have length 1. -/
theorem C8_witness :
    (⟨mrq0, mrq0.scales, [2], ⟨1, 2, 0⟩,
        mrq0.scales.map (rowU mrq0 [2]), mrq0.scales.map (rowV mrq0 [2]),
        [2].map (fun qq => 1 + wlsSlope (xReals 1 2) (windowUcol mrq0 1 2 qq)
          (specWeights mrq0 1 2 0)),
        [2].map (fun qq => wlsSlope (xReals 1 2) (windowVcol mrq0 1 2 qq)
          (specWeights mrq0 1 2 0))⟩ : MultifractalSpectrum).Dq.length =
        ([2] : List ℝ).length ∧
      (⟨mrq0, mrq0.scales, [2], ⟨1, 2, 0⟩,
        mrq0.scales.map (rowU mrq0 [2]), mrq0.scales.map (rowV mrq0 [2]),
        [2].map (fun qq => 1 + wlsSlope (xReals 1 2) (windowUcol mrq0 1 2 qq)
          (specWeights mrq0 1 2 0)),
        [2].map (fun qq => wlsSlope (xReals 1 2) (windowVcol mrq0 1 2 qq)
          (specWeights mrq0 1 2 0))⟩ : MultifractalSpectrum).hq.length =
        ([2] : List ℝ).length :=
  C8_output_lengths mrq0 [2] 1 2 0 _
    (init_ok_of (computeUV_ok mrq0 [2] (valid_keysPresent mrq0_valid))
      (regressStage_spec mrq0 [2] 1 2 0 2 (by decide) (by decide) (by decide)
        (by decide)
        (by
          intro j ha hb
          interval_cases j <;> rfl)))

/-- C2: over a window of at least two scales inside the MRQ's scales
`1..jmax`, construction succeeds and, for every moment order (in order),
`Dq` is `1 +` the slope of the weighted regression of the `U` column over
scales `j1..j2` against `x = j1..j2`, and `hq` is the slope of the same
regression of the `V` column, with weights all ones (ordinary) or
`nj[x[k]]` (weighted-by-count); intercepts are discarded. -/
theorem C2_regression_outputs (mrq : MultiResolutionQuantity) (q : List ℝ)
    (j1 j2 jmax : ℤ) (wtype : ℕ)
    (hscales : mrq.scales = intRange 1 jmax)
    (hkeys : mrq.keysPresent)
    (h1 : 1 ≤ j1) (h12 : j1 < j2) (h2 : j2 ≤ jmax) :
    MultifractalSpectrum.compute mrq q ⟨j1, j2, wtype⟩ =
      .ok
        (q.map (fun qq => 1 + wlsSlope (xReals j1 j2) (windowUcol mrq j1 j2 qq)
            (specWeights mrq j1 j2 wtype)),
         q.map (fun qq => wlsSlope (xReals j1 j2) (windowVcol mrq j1 j2 qq)
            (specWeights mrq j1 j2 wtype))) := by
  have hwin : ∀ j, j1 ≤ j → j ≤ j2 → (mrq.nj j).isSome := by
    intro j ha hb
    have hmem : j ∈ mrq.scales := by
      rw [hscales]
      exact intRange_mem.mpr ⟨by omega, by omega⟩
    exact (hkeys j hmem).1
  rw [compute_of_UV ⟨j1, j2, wtype⟩ (computeUV_ok mrq q hkeys)]
  exact regressStage_spec mrq q j1 j2 wtype jmax hscales h1 h12 h2 hwin

/-- C2 witness: the full output characterization at `mrq0`, `q = [2]`,
window `[1, 2]`, ordinary mode. -/
theorem C2_witness :
    MultifractalSpectrum.compute mrq0 [2] ⟨1, 2, 0⟩ =
      .ok
        ([2].map (fun qq => 1 + wlsSlope (xReals 1 2) (windowUcol mrq0 1 2 qq)
            (specWeights mrq0 1 2 0)),
         [2].map (fun qq => wlsSlope (xReals 1 2) (windowVcol mrq0 1 2 qq)
            (specWeights mrq0 1 2 0))) :=
  C2_regression_outputs mrq0 [2] 1 2 2 0 (by decide)
    (valid_keysPresent mrq0_valid) (by decide) (by decide) (by decide)

/-- C7: when `nj` is constant (and positive) across the window `[j1, j2]`,
ordinary and weighted-by-count regressions produce identical results. -/
theorem C7_wtype_invariance (mrq : MultiResolutionQuantity) (q : List ℝ)
    (j1 j2 : ℤ) (c : ℕ) (hc : 0 < c)
    (hconst : ∀ j, j1 ≤ j → j ≤ j2 → mrq.nj j = some c) :
    MultifractalSpectrum.compute mrq q ⟨j1, j2, 1⟩ =
      MultifractalSpectrum.compute mrq q ⟨j1, j2, 0⟩ := by
  cases hUV : MultifractalSpectrum.computeUV mrq q with
  | error e =>
    rw [compute_error_of_UV _ hUV, compute_error_of_UV _ hUV]
  | ok UV =>
    obtain ⟨U, V⟩ := UV
    rw [compute_of_UV _ hUV, compute_of_UV _ hUV]
    exact regressStage_wtype01 mrq q j1 j2 U V c hc hconst

/-- C7 witness: `mrq0` has constant `nj = 1` on `[1, 2]`. -/
theorem C7_witness :
    MultifractalSpectrum.compute mrq0 [2] ⟨1, 2, 1⟩ =
      MultifractalSpectrum.compute mrq0 [2] ⟨1, 2, 0⟩ :=
  C7_wtype_invariance mrq0 [2] 1 2 1 (by decide)
    (by
      intro j ha hb
      interval_cases j <;> rfl)

/-- C9 counterexample: after construction the estimator still holds the
`U` and `V` matrices (here one row per scale: both have 2 rows), so the
held results are not only `hq` and `Dq`. -/
theorem C9_counterexample :
    (MultifractalSpectrum.init mrq0 [0] 1 2 0).map
        (fun s => (s.U.length, s.V.length)) = .ok (2, 2) := by
  rw [init_ok_of (computeUV_ok mrq0 [0] (valid_keysPresent mrq0_valid))
    (regressStage_spec mrq0 [0] 1 2 0 2 (by decide) (by decide) (by decide)
      (by decide)
      (by
        intro j ha hb
        interval_cases j <;> rfl))]
  rfl

/-- C9 amended: `_compute` assigns the statistics matrices to `self.U` and
`self.V`, so every successfully constructed estimator retains them: its `U`
and `V` attributes are exactly the matrices computed from the MRQ. -/
theorem C9_UV_retained (mrq : MultiResolutionQuantity) (q : List ℝ)
    (j1 j2 : ℤ) (wtype : ℕ) (s : MultifractalSpectrum)
    (h : MultifractalSpectrum.init mrq q j1 j2 wtype = .ok s) :
    MultifractalSpectrum.computeUV mrq q = .ok (s.U, s.V) := by
  unfold MultifractalSpectrum.init at h
  split at h
  · exact Except.noConfusion h
  rename_i U' V' heq1
  split at h
  · exact Except.noConfusion h
  rename_i r heq2
  injection h with h'
  subst h'
  exact heq1

/-- C9 witness: the retained matrices for `mrq0` with `q = [0]`. -/
theorem C9_witness :
    MultifractalSpectrum.computeUV mrq0 [0] =
      .ok (mrq0.scales.map (rowU mrq0 [0]), mrq0.scales.map (rowV mrq0 [0])) :=
  C9_UV_retained mrq0 [0] 1 2 0
    ⟨mrq0, mrq0.scales, [0], ⟨1, 2, 0⟩,
      mrq0.scales.map (rowU mrq0 [0]), mrq0.scales.map (rowV mrq0 [0]),
      [0].map (fun qq => 1 + wlsSlope (xReals 1 2) (windowUcol mrq0 1 2 qq)
        (specWeights mrq0 1 2 0)),
      [0].map (fun qq => wlsSlope (xReals 1 2) (windowVcol mrq0 1 2 qq)
        (specWeights mrq0 1 2 0))⟩
    (init_ok_of (computeUV_ok mrq0 [0] (valid_keysPresent mrq0_valid))
      (regressStage_spec mrq0 [0] 1 2 0 2 (by decide) (by decide) (by decide)
        (by decide)
        (by
          intro j ha hb
          interval_cases j <;> rfl)))

/-- C10: two MRQs with scales `1..jmax` that agree on `nj` and `values` for
every scale in `[j1, j2]` produce identical results for identical
`q, j1, j2, wtype` — data outside the window never influences the output. -/
theorem C10_window_determines (mA mB : MultiResolutionQuantity) (q : List ℝ)
    (j1 j2 jmaxA jmaxB : ℤ) (wtype : ℕ)
    (hsA : mA.scales = intRange 1 jmaxA)
    (hsB : mB.scales = intRange 1 jmaxB)
    (hkA : mA.keysPresent) (hkB : mB.keysPresent)
    (h1 : 1 ≤ j1) (h12 : j1 ≤ j2) (h2A : j2 ≤ jmaxA) (h2B : j2 ≤ jmaxB)
    (hagree : ∀ j, j1 ≤ j → j ≤ j2 →
      mA.nj j = mB.nj j ∧ mA.values j = mB.values j) :
    MultifractalSpectrum.compute mA q ⟨j1, j2, wtype⟩ =
      MultifractalSpectrum.compute mB q ⟨j1, j2, wtype⟩ := by
  have hwinA : ∀ j, j1 ≤ j → j ≤ j2 → (mA.nj j).isSome := by
    intro j ha hb
    have hmem : j ∈ mA.scales := by
      rw [hsA]
      exact intRange_mem.mpr ⟨by omega, by omega⟩
    exact (hkA j hmem).1
  have hwinB : ∀ j, j1 ≤ j → j ≤ j2 → (mB.nj j).isSome := by
    intro j ha hb
    have hmem : j ∈ mB.scales := by
      rw [hsB]
      exact intRange_mem.mpr ⟨by omega, by omega⟩
    exact (hkB j hmem).1
  rw [compute_of_UV _ (computeUV_ok mA q hkA),
    compute_of_UV _ (computeUV_ok mB q hkB)]
  apply regressStage_congr
  · show MultifractalSpectrum.get_nj_interv mA j1 j2 =
      MultifractalSpectrum.get_nj_interv mB j1 j2
    rw [get_nj_interv_ok mA j1 j2 hwinA, get_nj_interv_ok mB j1 j2 hwinB]
    refine congrArg Except.ok (List.map_congr_left ?_)
    intro j hj
    obtain ⟨ha, hb⟩ := intRange_mem.mp hj
    unfold njOf
    rw [(hagree j ha hb).1]
  · show pySlice (mA.scales.map (rowU mA q)) (j1 - 1) j2 =
      pySlice (mB.scales.map (rowU mB q)) (j1 - 1) j2
    rw [hsA, hsB,
      pySlice_map_intRange (rowU mA q) jmaxA j1 j2 h1 (by omega) h2A,
      pySlice_map_intRange (rowU mB q) jmaxB j1 j2 h1 (by omega) h2B]
    apply List.map_congr_left
    intro j hj
    obtain ⟨ha, hb⟩ := intRange_mem.mp hj
    unfold rowU njOf magOf
    rw [(hagree j ha hb).1, (hagree j ha hb).2]
  · show pySlice (mA.scales.map (rowV mA q)) (j1 - 1) j2 =
      pySlice (mB.scales.map (rowV mB q)) (j1 - 1) j2
    rw [hsA, hsB,
      pySlice_map_intRange (rowV mA q) jmaxA j1 j2 h1 (by omega) h2A,
      pySlice_map_intRange (rowV mB q) jmaxB j1 j2 h1 (by omega) h2B]
    apply List.map_congr_left
    intro j hj
    obtain ⟨ha, hb⟩ := intRange_mem.mp hj
    unfold rowV magOf
    rw [(hagree j ha hb).2]

/-- C10 witness: `mrq0` (scales 1..2) and `mrq1` (scales 1..3, extra data at
scale 3) agree on the window `[1, 2]` and produce the same output. -/
theorem C10_witness :
    MultifractalSpectrum.compute mrq0 [2] ⟨1, 2, 0⟩ =
      MultifractalSpectrum.compute mrq1 [2] ⟨1, 2, 0⟩ :=
  C10_window_determines mrq0 mrq1 [2] 1 2 2 3 0 (by decide) (by decide)
    (valid_keysPresent mrq0_valid) (valid_keysPresent mrq1_valid)
    (by decide) (by decide) (by decide) (by decide)
    (by
      intro j ha hb
      interval_cases j <;> exact ⟨rfl, rfl⟩)
